import Mathlib

/-
Shallow embedding of the marker-dispatch and client-event subsystems of
bevy_replicon (files src/core/command_markers.rs and
src/network_event/client_event.rs), together with theorems checking the
specification's claims against the embedded code.
-/

set_option maxHeartbeats 1000000

/-- Nat comparison, mirroring Rust's Ord for usize (used through Reverse in
the source: comparing Reverse(a) with Reverse(b) equals comparing b with a). -/
def natCmp (a b : Nat) : Ordering :=
  if a < b then Ordering.lt else if a = b then Ordering.eq else Ordering.gt

/-- Numeric rank of an Ordering (lt < eq < gt), used to state monotonicity of
a comparator along a sorted sequence. -/
def ordRank : Ordering → Nat
  | Ordering.lt => 0
  | Ordering.eq => 1
  | Ordering.gt => 2

/-- Fueled form of the branchless search loop of Rust core's
slice::binary_search_by: while size > 1, probe mid = base + size/2; keep base
on Greater, move base to mid otherwise; shrink size by half. The fuel only
makes the recursion structural; any fuel at least the initial size is enough. -/
def bsLoopF (cmp : Nat → Ordering) : Nat → Nat → Nat → Nat
  | 0, base, _ => base
  | Nat.succ fuel, base, size =>
    if size ≤ 1 then base
    else
      let half := size / 2
      if cmp (base + half) = Ordering.gt then bsLoopF cmp fuel base (size - half)
      else bsLoopF cmp fuel (base + half) (size - half)

/-- The search loop run to completion (fuel = size suffices since the window
shrinks by at least one each iteration). Returns the final base. -/
def bsLoop (cmp : Nat → Ordering) (base size : Nat) : Nat :=
  bsLoopF cmp size base size

/-- Rust core's slice::binary_search_by over indices 0..n: Ok(i) when the
final probe compares Equal, otherwise Err(base + 1) on Less and Err(base) on
Greater; Err(0) for the empty slice. -/
def binarySearchBy (cmp : Nat → Ordering) (n : Nat) : Except Nat Nat :=
  if n = 0 then Except.error 0
  else
    let b := bsLoop cmp 0 n
    match cmp b with
    | Ordering.eq => Except.ok b
    | Ordering.lt => Except.error (b + 1)
    | Ordering.gt => Except.error b

/-- The index at which binary_search_by's caller inserts
(unwrap_or_else(|index| index)). -/
def bsInsertIdx (cmp : Nat → Ordering) (n : Nat) : Nat :=
  match binarySearchBy cmp n with
  | Except.ok i => i
  | Except.error i => i

/-- MarkerConfig from command_markers.rs: a priority and a need_history flag. -/
structure MarkerConfig where
  priority : Nat
  need_history : Bool
deriving DecidableEq, Repr

/-- CommandMarker from command_markers.rs: a marker component id plus its
user-registered configuration. ComponentId is embedded as Nat. -/
structure CommandMarker where
  component_id : Nat
  config : MarkerConfig
deriving DecidableEq, Repr

/-- The CommandMarkers registry resource: a Vec of CommandMarker. -/
abbrev CommandMarkers := List CommandMarker

/-- Placeholder marker used only to make out-of-range getD total; all theorem
statements stay within bounds. -/
def dummyMarker : CommandMarker := ⟨0, ⟨0, false⟩⟩

/-- The comparator used by CommandMarkers::insert: binary_search_by_key with
key Reverse(priority), so element i compares as
Reverse(cm[i].priority).cmp(Reverse(m.priority)) = natCmp m.priority cm[i].priority. -/
def markerCmp (cm : CommandMarkers) (m : CommandMarker) : Nat → Ordering :=
  fun i => natCmp m.config.priority ((cm.getD i dummyMarker).config.priority)

/-- The insertion index computed by CommandMarkers::insert:
binary_search_by_key(..).unwrap_or_else(|index| index). -/
def CommandMarkers.insertIndex (cm : CommandMarkers) (m : CommandMarker) : Nat :=
  bsInsertIdx (markerCmp cm m) cm.length

/-- CommandMarkers::insert from command_markers.rs: binary-search the position
by descending priority and Vec::insert the marker there, returning the index. -/
def CommandMarkers.insert (cm : CommandMarkers) (m : CommandMarker) : CommandMarkers × Nat :=
  let idx := cm.insertIndex m
  (List.insertIdx idx m cm, idx)

/-- Repeated registration: fold CommandMarkers::insert over a list of markers
starting from the given registry (the registry starts empty in the app). -/
def CommandMarkers.insertAll (cm : CommandMarkers) (ms : List CommandMarker) : CommandMarkers :=
  ms.foldl (fun acc m => (acc.insert m).1) cm

/-- The registry invariant: priorities are non-increasing along the Vec. -/
def SortedDesc (cm : CommandMarkers) : Prop :=
  List.Pairwise (fun a b => b.config.priority ≤ a.config.priority) cm

/-- EntityMarkers from command_markers.rs: which markers are present on an
entity plus the derived need_history flag. -/
structure EntityMarkers where
  markers : List Bool
  need_history : Bool
deriving DecidableEq, Repr

/-- The loop body of EntityMarkers::read: push whether the entity contains the
marker and set need_history when a contained marker requires history. -/
def EntityMarkers.readStep (entity : Nat → Bool) (em : EntityMarkers)
    (marker : CommandMarker) : EntityMarkers :=
  let contains := entity marker.component_id
  { markers := em.markers ++ [contains]
    need_history := if contains && marker.config.need_history then true else em.need_history }

/-- EntityMarkers::read: clear both fields, then run the loop body over the
registry in order. The entity is only probed through contains_id (an immutable
EntityRef), embedded as a predicate on component ids, so entity state cannot
be mutated here. The prior contents of self are discarded (markers.clear and
need_history = false), which the ignored argument reflects. -/
def EntityMarkers.read (_self : EntityMarkers) (cm : CommandMarkers)
    (entity : Nat → Bool) : EntityMarkers :=
  cm.foldl (EntityMarkers.readStep entity) { markers := [], need_history := false }

example : (CommandMarkers.insertAll [] [⟨1, ⟨0, false⟩⟩, ⟨2, ⟨2, false⟩⟩, ⟨3, ⟨1, false⟩⟩,
    ⟨4, ⟨0, false⟩⟩]).map (fun m => m.config.priority) = [2, 1, 0, 0] := by decide

/-- A comparator that is monotone (lt before eq before gt) on indices below n,
as the insert comparator is along a priority-sorted registry. -/
def OrdMono (cmp : Nat → Ordering) (n : Nat) : Prop :=
  ∀ i j, i ≤ j → j < n → ordRank (cmp i) ≤ ordRank (cmp j)

theorem ordRank_le_one_ne_gt {o : Ordering} (h : ordRank o ≤ 1) : o ≠ Ordering.gt := by
  cases o <;> simp [ordRank] at *

theorem ordRank_ge_two_eq_gt {o : Ordering} (h : 2 ≤ ordRank o) : o = Ordering.gt := by
  cases o <;> simp [ordRank] at *

theorem ordRank_ge_one_ne_lt {o : Ordering} (h : 1 ≤ ordRank o) : o ≠ Ordering.lt := by
  cases o <;> simp [ordRank] at *

theorem ordRank_le_zero_eq_lt {o : Ordering} (h : ordRank o ≤ 0) : o = Ordering.lt := by
  cases o <;> simp [ordRank] at *

theorem bsLoopF_bounds (cmp : Nat → Ordering) :
    ∀ fuel size base, size ≤ fuel → 1 ≤ size →
      base ≤ bsLoopF cmp fuel base size ∧ bsLoopF cmp fuel base size < base + size := by
  intro fuel
  induction fuel with
  | zero => intro size base hf hs; omega
  | succ fuel ih =>
    intro size base hf hs
    by_cases h1 : size ≤ 1
    · simp only [bsLoopF, if_pos h1]
      omega
    · by_cases hc : cmp (base + size / 2) = Ordering.gt
      · have hb := ih (size - size / 2) base (by omega) (by omega)
        simp only [bsLoopF, if_neg h1, if_pos hc]
        omega
      · have hb := ih (size - size / 2) (base + size / 2) (by omega) (by omega)
        simp only [bsLoopF, if_neg h1, if_neg hc]
        omega

theorem bsLoopF_inv (cmp : Nat → Ordering) (n : Nat) (hm : OrdMono cmp n) :
    ∀ fuel size base, size ≤ fuel → 1 ≤ size → base + size ≤ n →
      (base = 0 ∨ cmp base ≠ Ordering.gt) →
      (∀ j, base + size ≤ j → j < n → cmp j = Ordering.gt) →
      ((bsLoopF cmp fuel base size = 0 ∨ cmp (bsLoopF cmp fuel base size) ≠ Ordering.gt) ∧
        (∀ j, bsLoopF cmp fuel base size + 1 ≤ j → j < n → cmp j = Ordering.gt)) := by
  intro fuel
  induction fuel with
  | zero => intro size base hf hs _ _ _; omega
  | succ fuel ih =>
    intro size base hf hs hn hlow hup
    by_cases h1 : size ≤ 1
    · simp only [bsLoopF, if_pos h1]
      exact ⟨hlow, fun j hj hjn => hup j (by omega) hjn⟩
    · by_cases hc : cmp (base + size / 2) = Ordering.gt
      · simp only [bsLoopF, if_neg h1, if_pos hc]
        apply ih (size - size / 2) base (by omega) (by omega) (by omega) hlow
        intro j hj hjn
        by_cases hjb : base + size ≤ j
        · exact hup j hjb hjn
        · apply ordRank_ge_two_eq_gt
          have := hm (base + size / 2) j (by omega) hjn
          rw [hc] at this
          simpa [ordRank] using this
      · simp only [bsLoopF, if_neg h1, if_neg hc]
        apply ih (size - size / 2) (base + size / 2) (by omega) (by omega) (by omega)
          (Or.inr hc)
        intro j hj hjn
        exact hup j (by omega) hjn

theorem bsLoop_inv_final (cmp : Nat → Ordering) (n : Nat) (hm : OrdMono cmp n) (hn : 1 ≤ n) :
    bsLoop cmp 0 n < n ∧
      (bsLoop cmp 0 n = 0 ∨ cmp (bsLoop cmp 0 n) ≠ Ordering.gt) ∧
      (∀ j, bsLoop cmp 0 n + 1 ≤ j → j < n → cmp j = Ordering.gt) := by
  have hb := bsLoopF_bounds cmp n n 0 (le_refl n) hn
  have hi := bsLoopF_inv cmp n hm n n 0 (le_refl n) hn (by omega) (Or.inl rfl)
    (fun j hj hjn => by omega)
  exact ⟨by simpa [bsLoop] using hb.2, hi.1, hi.2⟩

/-- Where the Rust code inserts: everything strictly before the index compares
not-Greater (the new key is not past it) and everything at or after compares
not-Less, for any comparator monotone along the slice. -/
theorem bsInsertIdx_pos (cmp : Nat → Ordering) (n : Nat) (hm : OrdMono cmp n) :
    bsInsertIdx cmp n ≤ n ∧
      (∀ j, j < bsInsertIdx cmp n → cmp j ≠ Ordering.gt) ∧
      (∀ j, bsInsertIdx cmp n ≤ j → j < n → cmp j ≠ Ordering.lt) := by
  by_cases hn0 : n = 0
  · subst hn0
    simp [bsInsertIdx, binarySearchBy]
  · have hn : 1 ≤ n := by omega
    obtain ⟨hblt, hlow, hup⟩ := bsLoop_inv_final cmp n hm hn
    cases hc : cmp (bsLoop cmp 0 n) with
    | eq =>
      have hidx : bsInsertIdx cmp n = bsLoop cmp 0 n := by
        simp only [bsInsertIdx, binarySearchBy, if_neg hn0]
        rw [hc]
      rw [hidx]
      refine ⟨by omega, ?_, ?_⟩
      · intro j hj
        apply ordRank_le_one_ne_gt
        have := hm j (bsLoop cmp 0 n) (by omega) hblt
        rw [hc] at this
        simpa [ordRank] using this
      · intro j hj hjn
        apply ordRank_ge_one_ne_lt
        have := hm (bsLoop cmp 0 n) j hj hjn
        rw [hc] at this
        simpa [ordRank] using this
    | lt =>
      have hidx : bsInsertIdx cmp n = bsLoop cmp 0 n + 1 := by
        simp only [bsInsertIdx, binarySearchBy, if_neg hn0]
        rw [hc]
      rw [hidx]
      refine ⟨by omega, ?_, ?_⟩
      · intro j hj
        have := hm j (bsLoop cmp 0 n) (by omega) hblt
        rw [hc] at this
        have : cmp j = Ordering.lt := ordRank_le_zero_eq_lt (by simpa [ordRank] using this)
        simp [this]
      · intro j hj hjn
        rw [hup j hj hjn]
        simp
    | gt =>
      have hidx : bsInsertIdx cmp n = bsLoop cmp 0 n := by
        simp only [bsInsertIdx, binarySearchBy, if_neg hn0]
        rw [hc]
      rw [hidx]
      have hb0 : bsLoop cmp 0 n = 0 := by
        rcases hlow with h | h
        · exact h
        · exact absurd hc h
      refine ⟨by omega, by omega, ?_⟩
      · intro j _ hjn
        have := hm (bsLoop cmp 0 n) j (by omega) hjn
        rw [hc] at this
        have : cmp j = Ordering.gt := ordRank_ge_two_eq_gt (by simpa [ordRank] using this)
        simp [this]

/-- When an Equal index exists, the branchless search returns Ok at an Equal
index (it never lands past the run of equals). -/
theorem binarySearchBy_finds_eq (cmp : Nat → Ordering) (n : Nat) (hm : OrdMono cmp n)
    (j : Nat) (hj : j < n) (he : cmp j = Ordering.eq) :
    binarySearchBy cmp n = Except.ok (bsLoop cmp 0 n) ∧ bsLoop cmp 0 n < n ∧
      cmp (bsLoop cmp 0 n) = Ordering.eq := by
  have hn0 : n ≠ 0 := by omega
  obtain ⟨hblt, hlow, hup⟩ := bsLoop_inv_final cmp n hm (by omega)
  cases hc : cmp (bsLoop cmp 0 n) with
  | eq =>
    refine ⟨?_, hblt, rfl⟩
    simp only [binarySearchBy, if_neg hn0]
    rw [hc]
  | lt =>
    exfalso
    by_cases hjb : j ≤ bsLoop cmp 0 n
    · have := hm j (bsLoop cmp 0 n) hjb hblt
      rw [hc, he] at this
      simp [ordRank] at this
    · have := hup j (by omega) hj
      rw [he] at this
      exact Ordering.noConfusion this
  | gt =>
    exfalso
    have hb0 : bsLoop cmp 0 n = 0 := by
      rcases hlow with h | h
      · exact h
      · exact absurd hc h
    have := hm (bsLoop cmp 0 n) j (by omega) hj
    rw [hc, he] at this
    simp [ordRank] at this

theorem natCmp_ne_gt_iff {a b : Nat} : natCmp a b ≠ Ordering.gt ↔ a ≤ b := by
  unfold natCmp
  split_ifs <;> simp <;> omega

theorem natCmp_ne_lt_iff {a b : Nat} : natCmp a b ≠ Ordering.lt ↔ b ≤ a := by
  unfold natCmp
  split_ifs <;> simp <;> omega

theorem natCmp_eq_iff {a b : Nat} : natCmp a b = Ordering.eq ↔ a = b := by
  unfold natCmp
  split_ifs <;> simp <;> omega

theorem natCmp_rank_mono {p a b : Nat} (h : b ≤ a) :
    ordRank (natCmp p a) ≤ ordRank (natCmp p b) := by
  unfold natCmp
  split_ifs <;> simp [ordRank] <;> omega

/-- Along a priority-sorted registry, the insert comparator is monotone. -/
theorem markerCmp_mono (cm : CommandMarkers) (m : CommandMarker) (hs : SortedDesc cm) :
    OrdMono (markerCmp cm m) cm.length := by
  intro i j hij hj
  apply natCmp_rank_mono
  rcases Nat.eq_or_lt_of_le hij with rfl | hlt
  · exact le_refl _
  · have hi : i < cm.length := lt_trans hlt hj
    have hp := (List.pairwise_iff_getElem.mp hs) i j hi hj hlt
    rw [List.getD_eq_getElem cm dummyMarker hj, List.getD_eq_getElem cm dummyMarker hi]
    exact hp

/-- Inserting at an index below which all priorities are at least the new one
and from which on all are at most the new one keeps the registry sorted. -/
theorem sortedDesc_insertIdx (m : CommandMarker) :
    ∀ (l : List CommandMarker) (i : Nat), i ≤ l.length → SortedDesc l →
      (∀ j, j < i → m.config.priority ≤ (l.getD j dummyMarker).config.priority) →
      (∀ j, i ≤ j → j < l.length → (l.getD j dummyMarker).config.priority ≤ m.config.priority) →
      SortedDesc (List.insertIdx i m l) := by
  intro l
  induction l with
  | nil =>
    intro i hi _ _ _
    have : i = 0 := by simpa using hi
    subst this
    simp [SortedDesc]
  | cons a l ih =>
    intro i hi hs hbef haft
    rcases List.pairwise_cons.mp hs with ⟨ha, hl⟩
    cases i with
    | zero =>
      simp only [List.insertIdx_zero]
      refine List.Pairwise.cons ?_ hs
      intro b hb
      obtain ⟨j, hj, rfl⟩ := List.mem_iff_getElem.mp hb
      have := haft j (Nat.zero_le j) hj
      rwa [List.getD_eq_getElem _ dummyMarker hj] at this
    | succ i =>
      simp only [List.insertIdx_succ_cons]
      have hi' : i ≤ l.length := by simpa using hi
      refine List.Pairwise.cons ?_ ?_
      · intro b hb
        rcases (List.mem_insertIdx hi').mp hb with rfl | hbl
        · have := hbef 0 (Nat.succ_pos i)
          simpa using this
        · exact ha b hbl
      · apply ih i hi' hl
        · intro j hj
          have := hbef (j + 1) (by omega)
          simpa using this
        · intro j hij hjl
          have := haft (j + 1) (by omega) (by simpa using Nat.succ_lt_succ hjl)
          simpa using this

/-- CommandMarkers::insert keeps the registry sorted by descending priority. -/
theorem insert_preserves_sorted (cm : CommandMarkers) (m : CommandMarker) (hs : SortedDesc cm) :
    SortedDesc (cm.insert m).1 := by
  have hm := markerCmp_mono cm m hs
  obtain ⟨hle, hbef, haft⟩ := bsInsertIdx_pos (markerCmp cm m) cm.length hm
  apply sortedDesc_insertIdx m cm (cm.insertIndex m) hle hs
  · intro j hj
    exact natCmp_ne_gt_iff.mp (hbef j hj)
  · intro j hij hjl
    exact natCmp_ne_lt_iff.mp (haft j hij hjl)

/-- Registration preserves sortedness along any sequence of inserts. -/
theorem insertAll_preserves_sorted :
    ∀ (ms : List CommandMarker) (cm : CommandMarkers), SortedDesc cm →
      SortedDesc (CommandMarkers.insertAll cm ms) := by
  intro ms
  induction ms with
  | nil => intro cm h; exact h
  | cons m ms ih =>
    intro cm h
    exact ih _ (insert_preserves_sorted cm m h)

/-- C4: After every sequence of CommandMarkers::insert calls with arbitrary
priorities, iterating the registry yields priorities in non-increasing order. -/
theorem c4_registry_sorted_descending (ms : List CommandMarker) :
    SortedDesc (CommandMarkers.insertAll [] ms) :=
  insertAll_preserves_sorted ms [] List.Pairwise.nil

/-- First-registered marker with priority 0 (component id 1). -/
def markerA : CommandMarker := ⟨1, ⟨0, false⟩⟩

/-- Second-registered marker, same priority 0 (component id 2). -/
def markerB : CommandMarker := ⟨2, ⟨0, false⟩⟩

/-- C1 (counterexample): registering markerA then markerB, which carry equal
priorities, yields the registry [markerB, markerA]: the later-inserted marker
precedes the earlier one, so insertion order is not preserved among equal
priorities. -/
theorem c1_equal_priority_insertion_order_refuted :
    markerA.config.priority = markerB.config.priority ∧
    CommandMarkers.insertAll [] [markerA, markerB] = [markerB, markerA] := by
  constructor
  · rfl
  · decide

/-- C1 (amended): when a marker is inserted into a priority-sorted registry
already containing some marker of equal priority, CommandMarkers::insert
places it at the binary-search position: directly before a previously present
marker of the same priority. Hence only descending-priority order is
maintained; ties are not kept in insertion order. -/
theorem c1_insert_equal_priority_goes_before_existing
    (cm : CommandMarkers) (m : CommandMarker) (hs : SortedDesc cm)
    (hex : ∃ j, j < cm.length ∧
      (cm.getD j dummyMarker).config.priority = m.config.priority) :
    (cm.insert m).2 < cm.length ∧
      (cm.insert m).1.getD (cm.insert m).2 dummyMarker = m ∧
      (cm.insert m).1.getD ((cm.insert m).2 + 1) dummyMarker =
        cm.getD (cm.insert m).2 dummyMarker ∧
      (cm.getD (cm.insert m).2 dummyMarker).config.priority = m.config.priority := by
  obtain ⟨j, hj, heq⟩ := hex
  have hm := markerCmp_mono cm m hs
  have he : markerCmp cm m j = Ordering.eq := by
    show natCmp m.config.priority ((cm.getD j dummyMarker).config.priority) = Ordering.eq
    rw [heq]
    simp [natCmp]
  obtain ⟨hok, hlt, hceq⟩ := binarySearchBy_finds_eq (markerCmp cm m) cm.length hm j hj he
  have hidx : cm.insertIndex m = bsLoop (markerCmp cm m) 0 cm.length := by
    simp [CommandMarkers.insertIndex, bsInsertIdx, hok]
  have hsnd : (cm.insert m).2 = bsLoop (markerCmp cm m) 0 cm.length := by
    simp [CommandMarkers.insert, hidx]
  have hfst : (cm.insert m).1 = List.insertIdx (bsLoop (markerCmp cm m) 0 cm.length) m cm := by
    simp [CommandMarkers.insert, hidx]
  have hle : bsLoop (markerCmp cm m) 0 cm.length ≤ cm.length := le_of_lt hlt
  have hlen : (List.insertIdx (bsLoop (markerCmp cm m) 0 cm.length) m cm).length =
      cm.length + 1 := List.length_insertIdx _ _ hle
  refine ⟨?_, ?_, ?_, ?_⟩
  · rw [hsnd]; exact hlt
  · rw [hsnd, hfst]
    rw [List.getD_eq_getElem _ dummyMarker (by omega)]
    exact List.getElem_insertIdx_self cm m _ hle
  · rw [hsnd, hfst]
    rw [List.getD_eq_getElem _ dummyMarker (by omega),
      List.getD_eq_getElem _ dummyMarker hlt]
    have h0 : bsLoop (markerCmp cm m) 0 cm.length + 0 < cm.length := by omega
    have := List.getElem_insertIdx_add_succ cm m (bsLoop (markerCmp cm m) 0 cm.length) 0 h0
    simpa using this
  · rw [hsnd]
    have : natCmp m.config.priority
        ((cm.getD (bsLoop (markerCmp cm m) 0 cm.length) dummyMarker).config.priority) =
        Ordering.eq := hceq
    exact (natCmp_eq_iff.mp this).symm

/-- Witness: the amended C1 statement applied to the concrete registry
[markerA] and the equal-priority marker markerB. -/
theorem c1_insert_equal_priority_goes_before_existing_witness :
    (CommandMarkers.insert [markerA] markerB).2 < 1 ∧
      (CommandMarkers.insert [markerA] markerB).1.getD
        (CommandMarkers.insert [markerA] markerB).2 dummyMarker = markerB ∧
      (CommandMarkers.insert [markerA] markerB).1.getD
        ((CommandMarkers.insert [markerA] markerB).2 + 1) dummyMarker =
        ([markerA] : CommandMarkers).getD
          (CommandMarkers.insert [markerA] markerB).2 dummyMarker ∧
      (([markerA] : CommandMarkers).getD
        (CommandMarkers.insert [markerA] markerB).2 dummyMarker).config.priority =
        markerB.config.priority := by
  have h := c1_insert_equal_priority_goes_before_existing [markerA] markerB
    (by simp [SortedDesc]) ⟨0, by decide, rfl⟩
  simpa using h

/-- Unrolled characterization of the read loop. -/
theorem entityMarkers_readStep_foldl (entity : Nat → Bool) :
    ∀ (l : List CommandMarker) (acc : EntityMarkers),
      l.foldl (EntityMarkers.readStep entity) acc =
        ⟨acc.markers ++ l.map (fun m => entity m.component_id),
          acc.need_history || l.any (fun m => entity m.component_id && m.config.need_history)⟩ := by
  intro l
  induction l with
  | nil => intro acc; simp
  | cons a l ih =>
    intro acc
    rw [List.foldl_cons, ih]
    cases hb : entity a.component_id && a.config.need_history <;>
      simp [EntityMarkers.readStep, hb]

/-- EntityMarkers::read in closed form: presence flags in registry order and
the disjunction of need_history over contained markers. -/
theorem entityMarkers_read_eq (self : EntityMarkers) (cm : CommandMarkers)
    (entity : Nat → Bool) :
    self.read cm entity =
      ⟨cm.map (fun m => entity m.component_id),
        cm.any (fun m => entity m.component_id && m.config.need_history)⟩ := by
  unfold EntityMarkers.read
  rw [entityMarkers_readStep_foldl]
  simp

/-- C5: after EntityMarkers::read over a registry of n markers, the markers
vector has exactly n entries, entry i is the entity's presence flag for marker
i, and need_history holds iff some present marker has need_history set; the
entity itself is only read (taken as an immutable probe), never mutated. -/
theorem c5_entity_markers_read_spec (self : EntityMarkers) (cm : CommandMarkers)
    (entity : Nat → Bool) :
    (self.read cm entity).markers.length = cm.length ∧
      (∀ i, i < cm.length →
        (self.read cm entity).markers.getD i false =
          entity (cm.getD i dummyMarker).component_id) ∧
      ((self.read cm entity).need_history = true ↔
        ∃ m ∈ cm, entity m.component_id = true ∧ m.config.need_history = true) := by
  rw [entityMarkers_read_eq]
  refine ⟨by simp, ?_, ?_⟩
  · intro i hi
    rw [List.getD_eq_getElem _ false (by simpa using hi),
      List.getD_eq_getElem _ dummyMarker hi]
    simp
  · simp [List.any_eq_true, Bool.and_eq_true]

/-- A concrete registry for the C5 witness: one history-needing marker with
component id 5 and one plain marker with component id 6. -/
def cmW : CommandMarkers := [⟨5, ⟨1, true⟩⟩, ⟨6, ⟨0, false⟩⟩]

/-- A concrete entity probe for the C5 witness: contains only component 5. -/
def entW : Nat → Bool := fun n => n == 5

/-- Witness: C5 applied to the concrete registry cmW and entity entW. -/
theorem c5_entity_markers_read_spec_witness :
    ((EntityMarkers.mk [] false).read cmW entW).markers.getD 0 false =
      entW (cmW.getD 0 dummyMarker).component_id :=
  (c5_entity_markers_read_spec (EntityMarkers.mk [] false) cmW entW).2.1 0 (by decide)

/-- Raw message bytes (the serializer's output), as a list of byte values. -/
abbrev Bytes := List Nat

/-- Model of bevy_ecs Events<T> (external dependency of the source): a double
buffer. events_a holds the previous frame's events and events_b the current
frame's; Events::update swaps and clears, so an event survives exactly one
update and is dropped by the second. -/
structure BEvents (α : Type) where
  events_a : List α
  events_b : List α
deriving DecidableEq, Repr

/-- An empty Events<T> resource. -/
def BEvents.empty {α : Type} : BEvents α := ⟨[], []⟩

/-- Events::send: push into the current buffer. -/
def BEvents.push (e : BEvents α) (x : α) : BEvents α :=
  ⟨e.events_a, e.events_b ++ [x]⟩

/-- Events::update (run once per frame by bevy): swap buffers, clearing the
oldest. -/
def BEvents.update (e : BEvents α) : BEvents α := ⟨e.events_b, []⟩

/-- What a fresh reader (events.get_reader().read(&events), reader state 0)
yields: every event still buffered, oldest first. -/
def BEvents.readAll (e : BEvents α) : List α := e.events_a ++ e.events_b

/-- Events::drain: all buffered events in order, and both buffers emptied. -/
def BEvents.drain (e : BEvents α) : List α × BEvents α :=
  (e.events_a ++ e.events_b, ⟨[], []⟩)

/-- Events::len. -/
def BEvents.len (e : BEvents α) : Nat := e.events_a.length + e.events_b.length

/-- Events::send_batch: append in order to the current buffer. -/
def BEvents.sendBatch (e : BEvents α) (xs : List α) : BEvents α :=
  ⟨e.events_a, e.events_b ++ xs⟩

/-- Modelled from the spec: core::ClientId is not under src/; the spec only
needs sender identities with the local authority's distinguished identity. -/
structure ClientId where
  id : Nat
deriving DecidableEq, Repr

/-- Modelled from the spec: the local authority's identity (ClientId::SERVER). -/
def ClientId.SERVER : ClientId := ⟨0⟩

/-- FromClient<T> from client_event.rs: sender identity plus payload. -/
structure FromClient (α : Type) where
  client_id : ClientId
  event : α
deriving DecidableEq, Repr

/-- Modelled from the spec: the outbound transport interface
(RepliconClient::send is not under src/) records (channel id, bytes) pairs in
order. -/
abbrev Transport := List (Nat × Bytes)

/-- The per-event loop of send::<T>: serialize each event read by the fresh
reader and hand (channel_id, message) to the transport; a serialization
failure hits expect("client event should be serializable"), i.e. panics,
embedded as Except.error carrying the panic message. -/
def sendLoop (serialize_fn : α → Option Bytes) (channel_id : Nat) :
    List α → Transport → Except String Transport
  | [], client => Except.ok client
  | e :: rest, client =>
    match serialize_fn e with
    | some message => sendLoop serialize_fn channel_id rest (client ++ [(channel_id, message)])
    | none => Except.error "client event should be serializable"

/-- send::<T> from client_event.rs: reads ALL buffered events with a fresh
reader (events.get_reader().read(&events)); the Events<T> resource is borrowed
immutably (world.resource::<Events<T>>()), so the queue comes back unchanged. -/
def sendOp (serialize_fn : α → Option Bytes) (channel_id : Nat) (events : BEvents α)
    (client : Transport) : Except String (BEvents α × Transport) :=
  (sendLoop serialize_fn channel_id events.readAll client).map (fun c => (events, c))

/-- A registered entry of the ClientEventRegistry, type-erased; the erased
payloads are embedded as Nat. -/
structure NetworkEventEntry where
  channel_id : Nat
  events : BEvents Nat
  serialize_fn : Nat → Option Bytes

/-- send_system from client_event.rs: run each entry's send in registration
order; a panic (expect) aborts the whole system and hence the tick. -/
def sendSystem : List NetworkEventEntry → Transport → Except String Transport
  | [], client => Except.ok client
  | entry :: rest, client =>
    match sendLoop entry.serialize_fn entry.channel_id entry.events.readAll client with
    | Except.ok client2 => sendSystem rest client2
    | Except.error msg => Except.error msg

/-- resend_locally::<T> from client_event.rs: when the local queue is
non-empty, drain it and send_batch the events as FromClient envelopes tagged
ClientId::SERVER. -/
def resendLocallyOp (events : BEvents α) (client_events : BEvents (FromClient α)) :
    BEvents α × BEvents (FromClient α) :=
  if events.len > 0 then
    let drained := events.drain
    (drained.2,
      client_events.sendBatch (drained.1.map (fun event => FromClient.mk ClientId.SERVER event)))
  else (events, client_events)

/-- The envelopes receive::<T> emits: each inbound message deserialized
independently; failures are dropped (inspect_err only logs) via filter_map. -/
def receivedEnvelopes (deserialize_fn : Bytes → Option α)
    (messages : List (ClientId × Bytes)) : List (FromClient α) :=
  messages.filterMap (fun m => (deserialize_fn m.2).map (fun event => FromClient.mk m.1 event))

/-- receive::<T> from client_event.rs: server.receive(channel) drains the
entry's channel's pending inbound messages (RepliconServer is not under src/;
modelled from the spec as a per-channel message queue), and the successfully
deserialized envelopes are appended via send_batch. -/
def receiveOp (deserialize_fn : Bytes → Option α) (messages : List (ClientId × Bytes))
    (client_events : BEvents (FromClient α)) :
    BEvents (FromClient α) × List (ClientId × Bytes) :=
  (client_events.sendBatch (receivedEnvelopes deserialize_fn messages), [])

/-- reset::<T> from client_event.rs: drain the Events<T> resource (the drained
count is only logged). -/
def resetOp (events : BEvents α) : BEvents α := (events.drain).2

/-- The per-event-type slice of world state the lifecycle systems touch: the
outgoing Events<T> queue and the received Events<FromClient<T>> queue. -/
structure EventWorld (α : Type) where
  events : BEvents α
  client_events : BEvents (FromClient α)
deriving DecidableEq, Repr

/-- reset::<T> acting on the world slice: it only touches Events<T>. -/
def resetWorld (w : EventWorld α) : EventWorld α := { w with events := resetOp w.events }

/-- Running reset::<T> and then receive::<T> within the same tick. -/
def resetThenReceive (deserialize_fn : Bytes → Option α)
    (messages : List (ClientId × Bytes)) (w : EventWorld α) :
    EventWorld α × List (ClientId × Bytes) :=
  let w1 := resetWorld w
  let r := receiveOp deserialize_fn messages w1.client_events
  ({ w1 with client_events := r.1 }, r.2)

/-- The queue used for the C2 evaluation: a single freshly raised event. -/
def c2Events : BEvents Nat := BEvents.push BEvents.empty 42

/-- A total serializer for the C2 evaluation. -/
def c2Ser : Nat → Option Bytes := fun n => some [n]

/-- C2 (code evaluated at the failing input): send transports the queued
event but leaves the queue intact (len still 1, not drained), and after the
frame boundary (Events::update, which retains last frame's events) the next
invocation of send reads the same event with its fresh reader and hands it to
the transport a second time. -/
theorem c2_send_does_not_drain_and_resends :
    sendOp c2Ser 3 c2Events [] = Except.ok (c2Events, [(3, [42])]) ∧
      c2Events.len = 1 ∧
      sendOp c2Ser 3 (BEvents.update c2Events) [(3, [42])] =
        Except.ok (BEvents.update c2Events, [(3, [42]), (3, [42])]) := by
  refine ⟨rfl, rfl, rfl⟩

/-- sendLoop panics (with the expect message) whenever some event in the batch
fails to serialize. -/
theorem sendLoop_error_on_failure (f : α → Option Bytes) (ch : Nat) :
    ∀ (es : List α) (client : Transport), (∃ e ∈ es, f e = none) →
      sendLoop f ch es client = Except.error "client event should be serializable" := by
  intro es
  induction es with
  | nil => intro client h; simp at h
  | cons e rest ih =>
    intro client h
    cases hfe : f e with
    | none => simp [sendLoop, hfe]
    | some b =>
      rcases h with ⟨e', he', hfail⟩
      rcases List.mem_cons.mp he' with rfl | hrest
      · rw [hfe] at hfail
        exact Option.noConfusion hfail
      · simp only [sendLoop, hfe]
        exact ih _ ⟨e', hrest, hfail⟩

/-- Every error sendLoop can produce carries the expect message. -/
theorem sendLoop_error_msg (f : α → Option Bytes) (ch : Nat) :
    ∀ (es : List α) (client : Transport) (msg : String),
      sendLoop f ch es client = Except.error msg →
        msg = "client event should be serializable" := by
  intro es
  induction es with
  | nil => intro client msg h; simp [sendLoop] at h
  | cons e rest ih =>
    intro client msg h
    cases hfe : f e with
    | none =>
      simp [sendLoop, hfe] at h
      exact h.symm
    | some b =>
      simp only [sendLoop, hfe] at h
      exact ih _ _ h

/-- The registry used for the C3 counterexample: the first event type has a
payload (7) whose serializer fails and another (8) queued after it; a second
event type has payload 9 queued. -/
def c3Entries : List NetworkEventEntry :=
  [⟨1, BEvents.push (BEvents.push BEvents.empty 7) 8, fun n => if n = 7 then none else some [n]⟩,
    ⟨2, BEvents.push BEvents.empty 9, fun n => some [n]⟩]

/-- C3 (counterexample): a serialization failure in the send phase panics
(expect), aborting the tick: the send system errors out, so neither the
remaining event (8) of the failing type nor the other registered type's event
(9) is handed to the transport - the failure is not a mere diagnostic. -/
theorem c3_serialize_failure_halts_tick :
    sendSystem c3Entries [] = Except.error "client event should be serializable" := rfl

/-- C3 (amended): a failure to serialize any queued payload during the send
phase halts the tick immediately with the panic message of the expect call;
remaining events and other event types' send phases do not run. -/
theorem c3_send_halts_on_serialize_failure
    (entries : List NetworkEventEntry) (client : Transport)
    (h : ∃ entry ∈ entries, ∃ e ∈ entry.events.readAll, entry.serialize_fn e = none) :
    sendSystem entries client = Except.error "client event should be serializable" := by
  induction entries generalizing client with
  | nil => simp at h
  | cons entry rest ih =>
    rcases h with ⟨entry', hmem, hfail⟩
    rcases List.mem_cons.mp hmem with rfl | hrest
    · rw [sendSystem, sendLoop_error_on_failure entry'.serialize_fn entry'.channel_id
        entry'.events.readAll client hfail]
    · cases hres : sendLoop entry.serialize_fn entry.channel_id entry.events.readAll client with
      | ok client2 =>
        rw [sendSystem, hres]
        exact ih client2 ⟨entry', hrest, hfail⟩
      | error msg =>
        rw [sendSystem, hres, sendLoop_error_msg _ _ _ _ _ hres]

/-- A single-entry registry whose only queued payload fails to serialize,
for the C3 witness. -/
def c3wEntries : List NetworkEventEntry := [⟨4, BEvents.push BEvents.empty 7, fun _ => none⟩]

/-- Witness: the amended C3 statement applied to the concrete registry
c3wEntries. -/
theorem c3_send_halts_on_serialize_failure_witness :
    sendSystem c3wEntries [] = Except.error "client event should be serializable" :=
  c3_send_halts_on_serialize_failure c3wEntries []
    ⟨⟨4, BEvents.push BEvents.empty 7, fun _ => none⟩, by simp [c3wEntries], 7,
      by simp [BEvents.readAll, BEvents.push, BEvents.empty], rfl⟩

/-- C6: receive delivers exactly one FromClient envelope per inbound message
that deserializes successfully (pairing the sender with the payload, appended
in batch order), and a message that fails to deserialize is dropped without
preventing delivery of the others. -/
theorem c6_receive_filters_and_delivers (deserialize_fn : Bytes → Option α)
    (messages : List (ClientId × Bytes)) (q : BEvents (FromClient α)) :
    (receiveOp deserialize_fn messages q).1 =
        q.sendBatch (receivedEnvelopes deserialize_fn messages) ∧
      (receivedEnvelopes deserialize_fn messages).length =
        messages.countP (fun m => (deserialize_fn m.2).isSome) ∧
      (∀ cid msg e, (cid, msg) ∈ messages → deserialize_fn msg = some e →
        FromClient.mk cid e ∈ receivedEnvelopes deserialize_fn messages) ∧
      (∀ pre bad post, messages = pre ++ bad :: post → deserialize_fn bad.2 = none →
        receivedEnvelopes deserialize_fn messages =
          receivedEnvelopes deserialize_fn pre ++ receivedEnvelopes deserialize_fn post) := by
  refine ⟨rfl, ?_, ?_, ?_⟩
  · induction messages with
    | nil => rfl
    | cons m rest ih =>
      cases hm : deserialize_fn m.2 <;>
        simp [receivedEnvelopes, List.filterMap_cons, hm, List.countP_cons] at * <;>
        simp [ih]
  · intro cid msg e hmem hde
    exact List.mem_filterMap.mpr ⟨(cid, msg), hmem, by simp [hde]⟩
  · intro pre bad post hsplit hnone
    subst hsplit
    simp [receivedEnvelopes, List.filterMap_append, List.filterMap_cons, hnone]

/-- A concrete deserializer for witnesses: the first byte is the payload. -/
def dW : Bytes → Option Nat := fun bs => bs.head?

/-- Witness: C6 applied to a concrete single-message batch. -/
theorem c6_receive_filters_and_delivers_witness :
    FromClient.mk ⟨1⟩ 5 ∈ receivedEnvelopes dW [(⟨1⟩, [5])] :=
  (c6_receive_filters_and_delivers dW [(⟨1⟩, [5])] BEvents.empty).2.2.1 ⟨1⟩ [5] 5
    (by simp) rfl

/-- C7: on a non-empty local queue, resend_locally empties the outgoing queue
and appends one FromClient envelope per queued event, in queue order, each
tagged with ClientId::SERVER. -/
theorem c7_resend_locally_spec (events : BEvents α) (q : BEvents (FromClient α))
    (h : events.len > 0) :
    (resendLocallyOp events q).1 = BEvents.empty ∧
      (resendLocallyOp events q).2 =
        q.sendBatch (events.readAll.map (fun event => FromClient.mk ClientId.SERVER event)) := by
  simp [resendLocallyOp, if_pos h, BEvents.drain, BEvents.readAll, BEvents.empty]

/-- Witness: C7 applied to a concrete one-event queue. -/
theorem c7_resend_locally_spec_witness :
    (resendLocallyOp (BEvents.push BEvents.empty 11)
        (BEvents.empty : BEvents (FromClient Nat))).1 = BEvents.empty ∧
      (resendLocallyOp (BEvents.push BEvents.empty 11)
          (BEvents.empty : BEvents (FromClient Nat))).2 =
        BEvents.sendBatch BEvents.empty
          ((BEvents.push BEvents.empty 11).readAll.map
            (fun event => FromClient.mk ClientId.SERVER event)) :=
  c7_resend_locally_spec (BEvents.push BEvents.empty 11) BEvents.empty (by decide)

/-- The world used in the C8 counterexample: one stale outgoing event queued,
no received envelopes yet. -/
def c8World : EventWorld Nat := ⟨BEvents.push BEvents.empty 5, BEvents.empty⟩

/-- A deserializer for the C8 counterexample. -/
def c8Deser : Bytes → Option Nat := fun bs => bs.head?

/-- One pending inbound message on the entry's channel. -/
def c8Inbox : List (ClientId × Bytes) := [(⟨1⟩, [42])]

/-- C8 (counterexample): reset immediately followed by receive in the same
tick delivers one envelope, not zero, when an inbound message is pending:
reset drains only the outgoing Events<T>, never the server's inbound channel
queue that receive reads. -/
theorem c8_reset_then_receive_delivers_pending_inbound :
    ((resetThenReceive c8Deser c8Inbox c8World).1).client_events.len = 1 := rfl

/-- C8 (amended): reset followed immediately by receive delivers zero events
for any prior contents of the outgoing queue, provided no inbound messages
are pending on the entry's channel (reset also leaves the outgoing queue
empty). -/
theorem c8_reset_then_receive_empty_inbox_delivers_zero (deserialize_fn : Bytes → Option α)
    (messages : List (ClientId × Bytes)) (w : EventWorld α) (h : messages = []) :
    ((resetThenReceive deserialize_fn messages w).1).client_events = w.client_events ∧
      ((resetThenReceive deserialize_fn messages w).1).events = BEvents.empty := by
  subst h
  simp [resetThenReceive, receiveOp, receivedEnvelopes, resetWorld, resetOp,
    BEvents.drain, BEvents.sendBatch, BEvents.empty]

/-- Witness: the amended C8 statement at a concrete world with an empty
inbound channel. -/
theorem c8_reset_then_receive_empty_inbox_delivers_zero_witness :
    ((resetThenReceive c8Deser [] c8World).1).client_events = c8World.client_events ∧
      ((resetThenReceive c8Deser [] c8World).1).events = BEvents.empty :=
  c8_reset_then_receive_empty_inbox_delivers_zero c8Deser [] c8World rfl

/-- C10: reset::<T> drains only the outgoing Events<T> queue; the
Events<FromClient<T>> queue of already-received envelopes is untouched. -/
theorem c10_reset_preserves_fromclient_queue (w : EventWorld α) :
    (resetWorld w).events = BEvents.empty ∧
      (resetWorld w).client_events = w.client_events := by
  simp [resetWorld, resetOp, BEvents.drain, BEvents.empty]

/-- Little-endian fixed-width write: k bytes of n (bincode's fixed-int part). -/
def writeLE : Nat → Nat → List Nat
  | 0, _ => []
  | k + 1, n => n % 256 :: writeLE k (n / 256)

/-- Little-endian fixed-width read of k bytes. -/
def readLE : Nat → List Nat → Option (Nat × List Nat)
  | 0, bs => some (0, bs)
  | _ + 1, [] => none
  | k + 1, b :: bs =>
    match readLE k bs with
    | some (m, rest) => some (b + 256 * m, rest)
    | none => none

theorem readLE_writeLE (k : Nat) : ∀ (n : Nat), n < 256 ^ k → ∀ rest,
    readLE k (writeLE k n ++ rest) = some (n, rest) := by
  induction k with
  | zero =>
    intro n hn rest
    have h0 : n = 0 := by simpa using hn
    subst h0
    rfl
  | succ k ih =>
    intro n hn rest
    have hdiv : n / 256 < 256 ^ k := by
      rw [Nat.div_lt_iff_lt_mul (by norm_num : 0 < 256)]
      calc n < 256 ^ (k + 1) := hn
        _ = 256 ^ k * 256 := pow_succ 256 k
    simp only [writeLE, List.cons_append, readLE, List.append_eq,
      ih (n / 256) hdiv rest]
    rw [Nat.mod_add_div]

/-- bincode 1.x VarintEncoding for an unsigned 64-bit value: a single byte
below 251; marker 251 plus u16 little-endian below 2^16; marker 252 plus u32;
marker 253 plus u64 otherwise. -/
def serializeVarint (n : Nat) : List Nat :=
  if n < 251 then [n]
  else if n < 2 ^ 16 then 251 :: writeLE 2 n
  else if n < 2 ^ 32 then 252 :: writeLE 4 n
  else 253 :: writeLE 8 n

/-- bincode 1.x varint decoding for an unsigned 64-bit value (254 would mean a
u128 and anything else is invalid for u64). -/
def deserializeVarint : List Nat → Option (Nat × List Nat)
  | [] => none
  | b :: bs =>
    if b < 251 then some (b, bs)
    else if b = 251 then readLE 2 bs
    else if b = 252 then readLE 4 bs
    else if b = 253 then readLE 8 bs
    else none

theorem varint_roundtrip (n : Nat) (hn : n < 2 ^ 64) (rest : List Nat) :
    deserializeVarint (serializeVarint n ++ rest) = some (n, rest) := by
  by_cases h1 : n < 251
  · simp [serializeVarint, deserializeVarint, h1]
  · by_cases h2 : n < 2 ^ 16
    · simp only [serializeVarint, if_neg h1, if_pos h2, List.cons_append, deserializeVarint]
      norm_num
      exact readLE_writeLE 2 n (by norm_num at h2 ⊢; omega) rest
    · by_cases h3 : n < 2 ^ 32
      · simp only [serializeVarint, if_neg h1, if_neg h2, if_pos h3, List.cons_append,
          deserializeVarint]
        norm_num
        exact readLE_writeLE 4 n (by norm_num at h3 ⊢; omega) rest
      · simp only [serializeVarint, if_neg h1, if_neg h2, if_neg h3, List.cons_append,
          deserializeVarint]
        norm_num
        exact readLE_writeLE 8 n (by norm_num at hn ⊢; omega) rest

/-- The serde data-model fragment the default codec is exercised on: unsigned
64-bit integers, booleans, pairs (structs and tuples serialize as field
concatenation) and sequences (length-prefixed). -/
inductive SType : Type
  | tu64
  | tbool
  | tpair (a b : SType)
  | tseq (t : SType)
deriving DecidableEq, Repr

/-- Values of the payload universe. -/
inductive SVal : Type
  | vu64 (n : Nat)
  | vbool (b : Bool)
  | vpair (a b : SVal)
  | vseq (xs : List SVal)

/-- Typing/validity of a payload value: integers and sequence lengths fit in
64 bits and elements are homogeneous. -/
inductive WellFormed : SVal → SType → Prop
  | vu64 {n : Nat} : n < 2 ^ 64 → WellFormed (SVal.vu64 n) SType.tu64
  | vbool {b : Bool} : WellFormed (SVal.vbool b) SType.tbool
  | vpair {a b : SVal} {ta tb : SType} : WellFormed a ta → WellFormed b tb →
      WellFormed (SVal.vpair a b) (SType.tpair ta tb)
  | vseq {xs : List SVal} {t : SType} : xs.length < 2 ^ 64 →
      (∀ x, x ∈ xs → WellFormed x t) → WellFormed (SVal.vseq xs) (SType.tseq t)

mutual

/-- bincode serialization of a payload value under DefaultOptions (varint
integers, booleans as one byte, structs as concatenation, sequences
length-prefixed). -/
def serializeSVal : SVal → List Nat
  | SVal.vu64 n => serializeVarint n
  | SVal.vbool b => [if b then 1 else 0]
  | SVal.vpair a b => serializeSVal a ++ serializeSVal b
  | SVal.vseq xs => serializeVarint xs.length ++ serializeSList xs
termination_by v => sizeOf v

/-- Serialization of the elements of a sequence, in order. -/
def serializeSList : List SVal → List Nat
  | [] => []
  | x :: xs => serializeSVal x ++ serializeSList xs
termination_by xs => sizeOf xs

end

mutual

/-- bincode deserialization under DefaultOptions, driven by the expected type
(as serde's DeserializeOwned is); returns the value and the unconsumed rest. -/
def deserializeSVal : SType → List Nat → Option (SVal × List Nat)
  | SType.tu64, bs =>
    match deserializeVarint bs with
    | some (n, rest) => some (SVal.vu64 n, rest)
    | none => none
  | SType.tbool, bs =>
    match bs with
    | [] => none
    | b :: rest =>
      if b = 0 then some (SVal.vbool false, rest)
      else if b = 1 then some (SVal.vbool true, rest)
      else none
  | SType.tpair ta tb, bs =>
    match deserializeSVal ta bs with
    | some (a, rest) =>
      match deserializeSVal tb rest with
      | some (b, rest2) => some (SVal.vpair a b, rest2)
      | none => none
    | none => none
  | SType.tseq t, bs =>
    match deserializeVarint bs with
    | some (n, rest) =>
      match deserializeSListN t n rest with
      | some (xs, rest2) => some (SVal.vseq xs, rest2)
      | none => none
    | none => none
termination_by t _ => (sizeOf t, 0)

/-- Deserialization of exactly n sequence elements. -/
def deserializeSListN : SType → Nat → List Nat → Option (List SVal × List Nat)
  | _, 0, bs => some ([], bs)
  | t, k + 1, bs =>
    match deserializeSVal t bs with
    | some (x, rest) =>
      match deserializeSListN t k rest with
      | some (xs, rest2) => some (x :: xs, rest2)
      | none => none
    | none => none
termination_by t k _ => (sizeOf t, k + 1)

end

theorem deserializeSListN_roundtrip (t : SType) :
    ∀ (xs : List SVal),
      (∀ x ∈ xs, ∀ rest, deserializeSVal t (serializeSVal x ++ rest) = some (x, rest)) →
      ∀ rest, deserializeSListN t xs.length (serializeSList xs ++ rest) = some (xs, rest) := by
  intro xs
  induction xs with
  | nil =>
    intro _ rest
    simp [serializeSList, deserializeSListN]
  | cons x xs ih =>
    intro hall rest
    simp only [serializeSList, List.append_assoc, List.length_cons, deserializeSListN,
      hall x (by simp), ih (fun y hy => hall y (by simp [hy])) rest]

theorem serialize_roundtrip :
    ∀ (v : SVal) (t : SType), WellFormed v t → ∀ rest,
      deserializeSVal t (serializeSVal v ++ rest) = some (v, rest) := by
  intro v t h
  induction h with
  | vu64 hn =>
    intro rest
    simp only [serializeSVal, deserializeSVal, varint_roundtrip _ hn]
  | vbool =>
    intro rest
    rename_i b
    cases b <;> simp [serializeSVal, deserializeSVal]
  | vpair ha hb iha ihb =>
    intro rest
    simp only [serializeSVal, deserializeSVal, List.append_assoc, iha, ihb]
  | vseq hlen hxs ih =>
    intro rest
    simp only [serializeSVal, deserializeSVal, List.append_assoc, varint_roundtrip _ hlen,
      deserializeSListN_roundtrip _ _ (fun x hx => ih x hx) rest]

/-- default_serialize from client_event.rs:
DefaultOptions::new().serialize(event) (bincode 1.x DefaultOptions: varint
integer encoding, little endian); on this payload universe serialization
always succeeds, so the bincode Result is always Ok. -/
def default_serialize (v : SVal) : Option (List Nat) := some (serializeSVal v)

/-- default_deserialize from client_event.rs:
DefaultOptions::new().deserialize(&bytes); DefaultOptions rejects trailing
bytes, so the value must consume the entire message. -/
def default_deserialize (t : SType) (bytes : List Nat) : Option SVal :=
  match deserializeSVal t bytes with
  | some (v, []) => some v
  | _ => none

/-- C9: for every payload value valid at its registered type, decoding the
bytes produced by the default serializer returns the original value:
default_deserialize (default_serialize v) = v. -/
theorem c9_default_codec_roundtrip (v : SVal) (t : SType) (h : WellFormed v t) :
    (default_serialize v).bind (default_deserialize t) = some v := by
  have h2 : deserializeSVal t (serializeSVal v) = some (v, []) := by
    have h3 := serialize_roundtrip v t h []
    simpa using h3
  simp [default_serialize, default_deserialize, h2]

/-- A concrete payload for the C9 witness: a struct holding a u64 (300, which
exercises the two-byte varint form) and a sequence of two booleans. -/
def c9Val : SVal := SVal.vpair (SVal.vu64 300) (SVal.vseq [SVal.vbool true, SVal.vbool false])

/-- The registered type of c9Val. -/
def c9Type : SType := SType.tpair SType.tu64 (SType.tseq SType.tbool)

/-- Witness: C9 applied to the concrete payload c9Val. -/
theorem c9_default_codec_roundtrip_witness :
    (default_serialize c9Val).bind (default_deserialize c9Type) = some c9Val :=
  c9_default_codec_roundtrip c9Val c9Type
    (WellFormed.vpair (WellFormed.vu64 (by norm_num))
      (WellFormed.vseq (by norm_num)
        (by
          intro x hx
          simp only [List.mem_cons, List.not_mem_nil, or_false] at hx
          rcases hx with rfl | rfl <;> exact WellFormed.vbool)))
